import Mathlib

/-!
Shallow embedding of `visual_lab.py` (soares7vinicius/visuallab-webcrawler).

The script logs into a patient-record portal, enumerates patients from a
paginated listing, and downloads each patient record page, its images and
its thermal-matrix files into a directory tree keyed by diagnosis class.

HTML pages are modelled abstractly: a listing page is a table of rows plus
a pagination-control text, a detail page carries image elements and the
anchor container that follows the thermal heading.  Network and clock are
an oracle (`Site`).  Side effects (HTTP requests, prints, mkdir, file
writes, log appends, process exit) are recorded as an ordered trace of
`Event`s, and a small filesystem model interprets the write/append events.
Machine behaviour that can raise (BeautifulSoup attribute/key/index
errors, requests exceptions) is modelled with `Except`/`Option`.
-/

namespace VisualLab

/-- Python `needle in hay.lower()` for an already-lowercase needle
(`"next" in pagination.lower()`, `"static" in link["title"].lower()`). -/
def containsLowerCI (needle hay : String) : Bool :=
  decide (needle.data <:+: hay.data.map Char.toLower)

/-- Python `re.search(r".*/(.*)$", s).group(1)`: the substring after the
last slash; `none` when the string has no slash (then `re.search` returns
`None` and `.group` raises `AttributeError`). -/
def lastSegment (s : String) : Option String :=
  if '/' ∈ s.data then
    some (String.mk ((s.data.reverse.takeWhile (fun c => c ≠ '/')).reverse))
  else none

/-- `self.base_url = "http://visual.ic.uff.br/dmi"`. -/
def baseUrl : String := "http://visual.ic.uff.br/dmi"

/-- `self.data_path = "data"`. -/
def dataPath : String := "data"

/-- `self.log_path = "report.log"`. -/
def logPath : String := "report.log"

/-- An `<a>` element: its `href` and `title` attributes, each possibly
absent (BeautifulSoup raises `KeyError` on a missing attribute). -/
structure Anchor where
  href : Option String
  title : Option String
deriving Repr, DecidableEq

/-- A `class_="imagem"` element of the detail page; `botoes` is the
nested `class_="botoes"` container with its `<a>` children, `none` when
`find` returns `None`. -/
structure ImageElem where
  botoes : Option (List Anchor)
deriving Repr, DecidableEq

/-- One `<tr>` of the listing table: the texts of its `<td>` cells. -/
structure Row where
  tds : List String
deriving Repr, DecidableEq

/-- One listing page: the rows of the `id="mytable"` table (`none` when
the table is absent) and the text of the `class_="pagination"` control
(`none` when that element is absent). -/
structure ListingPage where
  mytable : Option (List Row)
  pagination : Option String
deriving Repr, DecidableEq

/-- One patient detail page: its raw text, its `class_="imagem"`
elements, and the anchors of the container two siblings after the
`<h4>` matching `thermal` (`none` when the heading is absent). -/
structure DetailPage where
  rawText : String
  images : List ImageElem
  thermalDiv : Option (List Anchor)
deriving Repr, DecidableEq

/-- The outside world: login response, listing pages by page number,
detail pages by patient id, file downloads by URL (`Except.error` models
a raised `requests` exception, `ok` the response body — note an HTTP 404
still returns a body and raises nothing), and the wall clock used for
error-log timestamps. -/
structure Site where
  loginHasWarning : Bool
  listing : Nat → ListingPage
  detail : String → DetailPage
  fetch : String → Except String String
  clock : Nat → String

/-- The `settings.json` options the crawler reads. -/
structure Settings where
  clearDataBeforehand : Bool
  username : String
  password : String
  saveRecordPage : Bool
  saveImages : Bool
  saveThermalMatrixes : Bool
deriving Repr, DecidableEq

/-- One observable side effect, in program order. -/
inductive Event where
  | httpHead (url : String)
  | httpPost (url : String)
  | httpGetListing (pagina : Nat)
  | httpGetDetail (id : String)
  | httpGetFile (url : String)
  | printLine (s : String)
  | rmtree (p : String)
  | mkdir (p : String)
  | writeFile (p : String) (content : String) (binary : Bool)
  | appendLog (line : String)
  | exitProc (code : Nat)
deriving Repr, DecidableEq

/-! ### Python `dict` as an insertion-ordered association list -/

/-- `d[k] = v` on a Python dict: overwrite in place when the key exists,
append otherwise. -/
def dictInsert (d : List (String × String)) (k v : String) :
    List (String × String) :=
  if d.any (fun p => p.1 = k) then
    d.map (fun p => if p.1 = k then (k, v) else p)
  else d ++ [(k, v)]

/-- `dict(pairs)`: insert the pairs left to right. -/
def dictOfPairs (ps : List (String × String)) : List (String × String) :=
  ps.foldl (fun d p => dictInsert d p.1 p.2) []

/-- `d[k]` lookup (first entry with the key; dicts hold each key once). -/
def dictLookup (d : List (String × String)) (k : String) : Option String :=
  (d.find? (fun p => p.1 = k)).map Prod.snd

/-- The value of the last pair with key `k`, the reference semantics of
`dict(pairs)` lookup. -/
def lastLookup (ps : List (String × String)) (k : String) : Option String :=
  (ps.reverse.find? (fun p => p.1 = k)).map Prod.snd

/-! ### Enumerator: `_get_patients` -/

/-- Reasons the enumeration loop can stop abnormally.  `outOfFuel`
stands for non-termination of the Python `while True` (it is not a
Python behaviour; theorems always supply enough fuel). -/
inductive EnumErr where
  | noTable
  | noPagination
  | rowNoTd
  | rowNoSixthTd
  | outOfFuel
deriving Repr, DecidableEq

/-- `tr.td.text`: the first cell of a row; `AttributeError` when the row
has no `<td>`. -/
def rowId (r : Row) : Except EnumErr String :=
  match r.tds with
  | [] => .error .rowNoTd
  | t :: _ => .ok t

/-- `tr.find_all("td")[5].text`: the sixth cell of a row; `IndexError`
when the row has fewer than six cells. -/
def rowDiag (r : Row) : Except EnumErr String :=
  match r.tds.get? 5 with
  | none => .error .rowNoSixthTd
  | some t => .ok t

/-- The `while True` body of `_get_patients`, from page number `pagina`:
GET the listing page, take the table rows minus the header, accumulate
first-cell texts into `ids` and sixth-cell texts into `diags`, and loop
with `pagina + 1` while the pagination text contains `"next"`
(lower-cased).  Returns the trace of listing requests together with the
accumulated `(ids, diags)` or the raised error. -/
def getPatientsLoop (site : Site) :
    Nat → Nat → List Event × Except EnumErr (List String × List String)
  | _, 0 => ([], .error .outOfFuel)
  | pagina, fuel + 1 =>
    let page := site.listing pagina
    match page.mytable with
    | none => ([.httpGetListing pagina], .error .noTable)
    | some table =>
      let trs := table.drop 1
      match trs.mapM rowId with
      | .error e => ([.httpGetListing pagina], .error e)
      | .ok ids =>
        match trs.mapM rowDiag with
        | .error e => ([.httpGetListing pagina], .error e)
        | .ok diags =>
          match page.pagination with
          | none => ([.httpGetListing pagina], .error .noPagination)
          | some ptext =>
            if containsLowerCI "next" ptext then
              let rest := getPatientsLoop site (pagina + 1) fuel
              (.httpGetListing pagina :: rest.1,
               rest.2.map (fun q => (ids ++ q.1, diags ++ q.2)))
            else
              ([.httpGetListing pagina], .ok (ids, diags))

/-- `_get_patients`: run the loop from page 1 and build
`dict(zip(ids, diags))`. -/
def getPatients (site : Site) (fuel : Nat) :
    List Event × Except EnumErr (List (String × String)) :=
  let r := getPatientsLoop site 1 fuel
  (r.1, r.2.map (fun q => dictOfPairs (q.1.zip q.2)))

/-! ### Error log: `_append_error` -/

/-- How Python string-formats the `filename` variable: the text `None`
when the exception struck before a filename was computed. -/
def fnText : Option String → String
  | none => "None"
  | some f => f

/-- The line `_append_error` writes (the source misspells patient as
`patitent`). -/
def errorLine (now : String) (filename : Option String)
    (patientId : String) (msg : String) : String :=
  now ++ " - failed to download \x27" ++ fnText filename ++
    "\x27 at patitent #\x27" ++ patientId ++ "\x27 - " ++ msg ++ "\n"

/-! ### Fetcher: `_download_patient_images` -/

/-- `image.find(class_="botoes").find_all("a")[2]["href"]`: the `href`
of the third anchor of the action container.  The error text names the
Python exception the step raises. -/
def imageHref (img : ImageElem) : Except String String :=
  match img.botoes with
  | none => .error "AttributeError: NoneType has no attribute find_all"
  | some anchors =>
    match anchors.get? 2 with
    | none => .error "IndexError: list index out of range"
    | some a =>
      match a.href with
      | none => .error "KeyError: href"
      | some h => .ok h

/-- Outcome of the `try` body for one image element, before any file is
written: which URL was requested (if any), the derived filename (if
reached) and the content or the exception message. -/
inductive ItemStep where
  | noHref (msg : String)
  | noFilename (url : String)
  | fetchFail (url filename msg : String)
  | ok (url filename content : String)
deriving Repr, DecidableEq

/-- The steps of the image `try` block: extract the href, build the URL
as `base_url + href[2:]`, take the filename after the last slash, GET
the URL. -/
def imageStep (site : Site) (img : ImageElem) : ItemStep :=
  match imageHref img with
  | .error msg => .noHref msg
  | .ok href =>
    let url := baseUrl ++ String.drop href 2
    match lastSegment url with
    | none => .noFilename url
    | some filename =>
      match site.fetch url with
      | .error msg => .fetchFail url filename msg
      | .ok content => .ok url filename content

/-- `True` when the `try` body for this image raises, so the `except`
branch appends one error line. -/
def imageFails (site : Site) (img : ImageElem) : Bool :=
  match imageStep site img with
  | .ok _ _ _ => false
  | _ => true

/-- Events of one iteration of the image loop: a binary write of the
downloaded content on success, one error-log line on any exception
(`filename` is still `None` when the failure precedes its computation;
`re.search` on a URL with no slash yields `None` and `.group` raises). -/
def processImage (site : Site) (patientId now imagesPath : String)
    (img : ImageElem) : List Event :=
  match imageStep site img with
  | .noHref msg => [.appendLog (errorLine now none patientId msg)]
  | .noFilename _ =>
      [.appendLog (errorLine now none patientId
        "AttributeError: NoneType has no attribute group")]
  | .fetchFail url filename msg =>
      [.httpGetFile url,
       .appendLog (errorLine now (some filename) patientId msg)]
  | .ok url filename content =>
      [.httpGetFile url,
       .writeFile (imagesPath ++ "/" ++ filename) content true]

/-- The image loop, threading the clock index for timestamps. -/
def processImages (site : Site) (patientId imagesPath : String) :
    Nat → List ImageElem → List Event
  | _, [] => []
  | i, img :: rest =>
    processImage site patientId (site.clock i) imagesPath img ++
      processImages site patientId imagesPath (i + 1) rest

/-- `_download_patient_images`: make the `images` directory, then run
the per-image loop. -/
def downloadPatientImages (site : Site) (patientId patientPath : String)
    (images : List ImageElem) : List Event :=
  .mkdir (patientPath ++ "/images") ::
    processImages site patientId (patientPath ++ "/images") 0 images

/-! ### Fetcher: `_download_patient_matrixes` -/

/-- Reasons the matrix part (or the patient loop) crashes: the thermal
heading is absent (`find` returns `None`, `.next_sibling` raises), an
anchor of the container lacks `href` or `title` (the list comprehension
raises `KeyError` before anything is downloaded), or a class looked up
in `classes_path` is missing (cannot happen, kept for faithfulness). -/
inductive RunErr where
  | enumFail (e : EnumErr)
  | noThermalHeading
  | matrixNoHref
  | matrixNoTitle
  | classKeyMissing
deriving Repr, DecidableEq

/-- One element of the `matrixes` list comprehension: the URL
`base_url + link["href"][2:]` and the destination directory chosen by
whether `link["title"].lower()` contains `"static"`. -/
def matrixOfLink (staticPath dynamicPath : String) (link : Anchor) :
    Except RunErr (String × String) :=
  match link.href with
  | none => .error .matrixNoHref
  | some h =>
    match link.title with
    | none => .error .matrixNoTitle
    | some t =>
      .ok (baseUrl ++ String.drop h 2,
           if containsLowerCI "static" t then staticPath else dynamicPath)

/-- The steps of the matrix `try` block for one `(url, path)` pair:
filename after the last slash, then GET. -/
def matrixStep (site : Site) (url : String) : ItemStep :=
  match lastSegment url with
  | none => .noFilename url
  | some filename =>
    match site.fetch url with
    | .error msg => .fetchFail url filename msg
    | .ok content => .ok url filename content

/-- `True` when the `try` body for this matrix pair raises. -/
def matrixFails (site : Site) (m : String × String) : Bool :=
  match matrixStep site m.1 with
  | .ok _ _ _ => false
  | _ => true

/-- Events of one iteration of the matrix loop: a text write of the
downloaded content into the chosen directory on success, one error-log
line on any exception. -/
def processMatrix (site : Site) (patientId now : String)
    (m : String × String) : List Event :=
  match matrixStep site m.1 with
  | .noHref msg => [.appendLog (errorLine now none patientId msg)]
  | .noFilename _ =>
      [.appendLog (errorLine now none patientId
        "AttributeError: NoneType has no attribute group")]
  | .fetchFail url filename msg =>
      [.httpGetFile url,
       .appendLog (errorLine now (some filename) patientId msg)]
  | .ok url filename content =>
      [.httpGetFile url, .writeFile (m.2 ++ "/" ++ filename) content false]

/-- The matrix loop, threading the clock index for timestamps. -/
def processMatrixes (site : Site) (patientId : String) :
    Nat → List (String × String) → List Event
  | _, [] => []
  | i, m :: rest =>
    processMatrix site patientId (site.clock i) m ++
      processMatrixes site patientId (i + 1) rest

/-- `_download_patient_matrixes`: make `Static/` and `Dynamic/`, find
the container after the thermal heading (crashing if absent), build the
`matrixes` comprehension (crashing on a missing attribute), then run
the per-matrix loop. -/
def downloadPatientMatrixes (site : Site)
    (patientId patientPath : String) (page : DetailPage) :
    List Event × Option RunErr :=
  let staticPath := patientPath ++ "/Static"
  let dynamicPath := patientPath ++ "/Dynamic"
  let dirs : List Event := [.mkdir staticPath, .mkdir dynamicPath]
  match page.thermalDiv with
  | none => (dirs, some .noThermalHeading)
  | some links =>
    match links.mapM (matrixOfLink staticPath dynamicPath) with
    | .error e => (dirs, some e)
    | .ok matrixes =>
      (dirs ++ processMatrixes site patientId 0 matrixes, none)

/-! ### `_get_classes_path`, the patient loop and `run` -/

/-- `list(set(patients.values()))` modelled as first-occurrence
deduplication (Python set order is arbitrary; only membership is
observable downstream). -/
def classList (patients : List (String × String)) : List String :=
  (patients.map Prod.snd).dedup

/-- `_get_classes_path`: the class-to-path dict, each path
`data/<class>`. -/
def getClassesPath (patients : List (String × String)) :
    List (String × String) :=
  (classList patients).map (fun c => (c, dataPath ++ "/" ++ c))

/-- The `os.makedirs` calls `_get_classes_path` performs, in order. -/
def classDirEvents (patients : List (String × String)) : List Event :=
  (classList patients).map (fun c => .mkdir (dataPath ++ "/" ++ c))

/-- One iteration of the loop in `run` for patient `(id, class)`:
resolve the class path, `makedirs` the patient directory, GET the
detail page, then the three optional artifact phases.  The matrix phase
can crash the run. -/
def processPatient (site : Site) (settings : Settings)
    (classesPath : List (String × String)) (p : String × String) :
    List Event × Option RunErr :=
  match dictLookup classesPath p.2 with
  | none => ([], some .classKeyMissing)
  | some base =>
    let patientPath := base ++ "/" ++ p.1
    let page := site.detail p.1
    let ev0 : List Event := [.mkdir patientPath, .httpGetDetail p.1]
    let ev1 : List Event :=
      if settings.saveRecordPage then
        [.writeFile (patientPath ++ "/record.html") page.rawText false]
      else []
    let ev2 : List Event :=
      if settings.saveImages then
        downloadPatientImages site p.1 patientPath page.images
      else []
    if settings.saveThermalMatrixes then
      let r := downloadPatientMatrixes site p.1 patientPath page
      (ev0 ++ ev1 ++ ev2 ++ r.1, r.2)
    else
      (ev0 ++ ev1 ++ ev2, none)

/-- The patient loop of `run`; a crash in one patient stops the rest. -/
def processPatients (site : Site) (settings : Settings)
    (classesPath : List (String × String)) :
    List (String × String) → List Event × Option RunErr
  | [] => ([], none)
  | p :: ps =>
    let r := processPatient site settings classesPath p
    match r.2 with
    | some e => (r.1, some e)
    | none =>
      let rest := processPatients site settings classesPath ps
      (r.1 ++ rest.1, rest.2)

/-- The requests `_login` makes: `session.head` on the site root, then
the credentials POST. -/
def loginEvents : List Event :=
  [.httpHead (baseUrl ++ "/"), .httpPost (baseUrl ++ "/login.php")]

/-- `run`: login (on a warning marker, print the message and
`sys.exit()` — Python exits with status 0 when no argument is given),
then enumerate patients, create the class directories, and process each
patient.  Returns the event trace and the crash, if any. -/
def run (site : Site) (settings : Settings) (fuel : Nat) :
    List Event × Option RunErr :=
  if site.loginHasWarning then
    (loginEvents ++
      [.printLine "Username or password is incorrect.", .exitProc 0], none)
  else
    let enum := getPatients site fuel
    match enum.2 with
    | .error e => (loginEvents ++ enum.1, some (.enumFail e))
    | .ok patients =>
      let classesPath := getClassesPath patients
      let body := processPatients site settings classesPath patients
      (loginEvents ++ enum.1 ++ classDirEvents patients ++ body.1, body.2)

/-! ### `__init__` and the filesystem model -/

/-- The side effects of `VisualLab.__init__`, after reading
`settings.json`: optionally `shutil.rmtree("data")`, then
`os.makedirs("data")`, then `open("report.log", "w").write("")`. -/
def initEvents (settings : Settings) : List Event :=
  (if settings.clearDataBeforehand then [Event.rmtree dataPath] else []) ++
    [.mkdir dataPath, .writeFile logPath "" false]

/-- A file store as a path-to-content dict; `applyEvent` interprets the
file events: `writeFile` truncates, `appendLog` opens `report.log` with
mode `a+` (creating it when absent) and appends, `rmtree p` removes
everything strictly under `p`. -/
def applyEvent (fs : List (String × String)) : Event → List (String × String)
  | .writeFile p c _ => dictInsert fs p c
  | .appendLog line =>
    (match dictLookup fs logPath with
     | some c => dictInsert fs logPath (c ++ line)
     | none => dictInsert fs logPath line)
  | .rmtree p => fs.filter (fun kv => ¬ (p ++ "/").data.isPrefixOf kv.1.data)
  | _ => fs

/-- Run a trace of events over a file store. -/
def applyEvents (fs : List (String × String)) (evs : List Event) :
    List (String × String) :=
  evs.foldl applyEvent fs

/-- The keys of a dict, in order. -/
def dictKeys (d : List (String × String)) : List String :=
  d.map Prod.fst

/-! ### Lemmas about the dict model -/

theorem find?_map_replaceValue (d : List (String × String))
    (k k2 : String) (v : String) (h : k2 ≠ k) :
    (d.map (fun p => if p.1 = k then (k, v) else p)).find?
        (fun p => p.1 = k2) =
      d.find? (fun p => p.1 = k2) := by
  induction d with
  | nil => rfl
  | cons q d ih =>
    by_cases hq : q.1 = k
    · have hq2 : ¬ (q.1 = k2) := fun hc => h (hc ▸ hq.symm ▸ rfl)
      simp [hq, List.find?_cons, Ne.symm h, hq2, ih]
    · simp only [List.map_cons, if_neg hq]
      by_cases hq2 : q.1 = k2
      · simp [List.find?_cons, hq2]
      · simp [List.find?_cons, hq2, ih]

theorem find?_map_replaceFound (d : List (String × String))
    (k v : String) (h : d.any (fun p => p.1 = k) = true) :
    (d.map (fun p => if p.1 = k then (k, v) else p)).find?
        (fun p => p.1 = k) = some (k, v) := by
  induction d with
  | nil => simp at h
  | cons q d ih =>
    by_cases hq : q.1 = k
    · simp [hq, List.find?_cons]
    · have h' : d.any (fun p => p.1 = k) = true := by
        simpa [List.any_cons, hq] using h
      simp [hq, List.find?_cons, ih h']

theorem dictLookup_dictInsert (d : List (String × String))
    (k v k2 : String) :
    dictLookup (dictInsert d k v) k2 =
      if k2 = k then some v else dictLookup d k2 := by
  unfold dictInsert
  by_cases hmem : d.any (fun p => p.1 = k)
  · simp only [hmem, if_true]
    by_cases hk : k2 = k
    · subst hk
      simp [dictLookup, find?_map_replaceFound d k2 v hmem]
    · simp only [if_neg hk, dictLookup]
      rw [find?_map_replaceValue d k k2 v hk]
  · simp only [hmem, if_false, dictLookup, List.find?_append]
    by_cases hk : k2 = k
    · subst hk
      have hnone : d.find? (fun p => p.1 = k2) = none := by
        rw [List.find?_eq_none]
        intro x hx hc
        rw [List.any_eq_true] at hmem
        exact hmem ⟨x, hx, hc⟩
      simp [hnone, List.find?_cons]
    · have hkk : ¬ (k = k2) := fun hc => hk hc.symm
      cases hfd : d.find? (fun p => p.1 = k2) with
      | some p => simp [hfd, hk]
      | none => simp [hfd, List.find?_cons, hkk, hk]

theorem lastLookup_cons (p : String × String)
    (ps : List (String × String)) (k : String) :
    lastLookup (p :: ps) k =
      (lastLookup ps k <|> if p.1 = k then some p.2 else none) := by
  unfold lastLookup
  rw [List.reverse_cons, List.find?_append]
  cases hfd : ps.reverse.find? (fun q => q.1 = k) with
  | some q => simp [hfd]
  | none =>
    by_cases hp : p.1 = k
    · simp [hfd, List.find?_cons, hp]
    · simp [hfd, List.find?_cons, hp]

theorem dictLookup_foldInsert (ps : List (String × String)) :
    ∀ (acc : List (String × String)) (k : String),
      dictLookup (ps.foldl (fun d p => dictInsert d p.1 p.2) acc) k =
        (lastLookup ps k <|> dictLookup acc k) := by
  induction ps with
  | nil => intro acc k; simp [lastLookup]
  | cons p ps ih =>
    intro acc k
    rw [List.foldl_cons, ih, lastLookup_cons, dictLookup_dictInsert]
    cases hlast : lastLookup ps k with
    | some v => simp
    | none =>
      by_cases hp : p.1 = k
      · simp [hp, if_pos rfl]
      · have : ¬ (k = p.1) := fun hc => hp hc.symm
        simp [hp, this]

/-- `dict(pairs)` looks keys up by last occurrence. -/
theorem dictLookup_dictOfPairs (ps : List (String × String)) (k : String) :
    dictLookup (dictOfPairs ps) k = lastLookup ps k := by
  rw [dictOfPairs, dictLookup_foldInsert]
  cases h : lastLookup ps k <;> simp [dictLookup]

theorem dictKeys_dictInsert (d : List (String × String)) (k v : String) :
    dictKeys (dictInsert d k v) =
      if k ∈ dictKeys d then dictKeys d else dictKeys d ++ [k] := by
  unfold dictInsert dictKeys
  by_cases hmem : d.any (fun p => p.1 = k)
  · have hk : k ∈ d.map Prod.fst := by
      rw [List.any_eq_true] at hmem
      obtain ⟨p, hp, hpk⟩ := hmem
      simp only [decide_eq_true_eq] at hpk
      exact List.mem_map.mpr ⟨p, hp, hpk⟩
    simp only [hmem, if_true, hk, List.map_map]
    apply List.map_congr_left
    intro p hp
    by_cases hq : p.1 = k <;> simp [hq]
  · have hk : k ∉ d.map Prod.fst := by
      intro hc
      obtain ⟨p, hp, hpk⟩ := List.mem_map.mp hc
      rw [List.any_eq_true] at hmem
      exact hmem ⟨p, hp, by simp [hpk]⟩
    simp [hmem, hk]

theorem dictKeys_nodup_foldInsert (ps : List (String × String)) :
    ∀ acc : List (String × String), (dictKeys acc).Nodup →
      (dictKeys (ps.foldl (fun d p => dictInsert d p.1 p.2) acc)).Nodup := by
  induction ps with
  | nil => intro acc h; exact h
  | cons p ps ih =>
    intro acc h
    rw [List.foldl_cons]
    apply ih
    rw [dictKeys_dictInsert]
    by_cases hmem : p.1 ∈ dictKeys acc
    · simpa [hmem] using h
    · rw [if_neg hmem]
      refine List.Nodup.append h (List.nodup_singleton _) ?_
      intro a ha hb
      rw [List.mem_singleton] at hb
      exact hmem (hb ▸ ha)

/-- Each key occurs at most once in `dict(pairs)`. -/
theorem dictKeys_dictOfPairs_nodup (ps : List (String × String)) :
    (dictKeys (dictOfPairs ps)).Nodup :=
  dictKeys_nodup_foldInsert ps [] List.nodup_nil

/-! ### Enumerator lemmas -/

/-- The non-header rows of a listing page. -/
def pageRows (p : ListingPage) : List Row :=
  (p.mytable.getD []).drop 1

/-- The text of the first cell of a row. -/
def fstCell (r : Row) : String := r.tds.head?.getD ""

/-- The text of the sixth cell of a row. -/
def sixthCell (r : Row) : String := (r.tds.get? 5).getD ""

/-- The per-page contribution: one `(id, diagnosis)` pair per
non-header row. -/
def pagePairs (p : ListingPage) : List (String × String) :=
  (pageRows p).map (fun r => (fstCell r, sixthCell r))

/-- Whether the pagination control of a page advertises a next page. -/
def hasNextPage (p : ListingPage) : Bool :=
  containsLowerCI "next" (p.pagination.getD "")

/-- A listing page the scraper can process without raising: the table
and the pagination control exist and each data row has at least six
cells. -/
def pageOk (p : ListingPage) : Prop :=
  p.mytable.isSome ∧ p.pagination.isSome ∧
    ∀ r ∈ pageRows p, 6 ≤ r.tds.length

theorem mapM_rowId_ok (rows : List Row)
    (h : ∀ r ∈ rows, r.tds ≠ []) :
    rows.mapM rowId = .ok (rows.map fstCell) := by
  induction rows with
  | nil => rfl
  | cons r rs ih =>
    obtain ⟨t, ts, ht⟩ : ∃ t ts, r.tds = t :: ts := by
      cases hc : r.tds with
      | nil => exact absurd hc (h r (by simp))
      | cons t ts => exact ⟨t, ts, rfl⟩
    rw [List.mapM_cons, ih (fun x hx => h x (by simp [hx]))]
    simp only [rowId, ht, fstCell, List.map_cons, List.head?_cons,
      Option.getD_some]
    rfl

theorem mapM_rowDiag_ok (rows : List Row)
    (h : ∀ r ∈ rows, 6 ≤ r.tds.length) :
    rows.mapM rowDiag = .ok (rows.map sixthCell) := by
  induction rows with
  | nil => rfl
  | cons r rs ih =>
    obtain ⟨t, ht⟩ : ∃ t, r.tds.get? 5 = some t := by
      cases hc : r.tds.get? 5 with
      | none =>
        rw [List.get?_eq_none] at hc
        exact absurd (h r (by simp)) (by omega)
      | some t => exact ⟨t, rfl⟩
    rw [List.mapM_cons, ih (fun x hx => h x (by simp [hx]))]
    rw [List.get?_eq_getElem?] at ht
    simp only [rowDiag, sixthCell, List.get?_eq_getElem?, ht,
      List.map_cons, Option.getD_some]
    rfl

theorem map_range_shift {α : Type} (g : Nat → α) (n s : Nat) :
    (List.range (n + 1)).map (fun j => g (s + j)) =
      g s :: (List.range n).map (fun j => g (s + 1 + j)) := by
  rw [List.range_succ_eq_map, List.map_cons, List.map_map]
  simp only [Nat.add_zero]
  congr 1
  apply List.map_congr_left
  intro j hj
  simp only [Function.comp_apply]
  congr 1
  omega

/-- Unfolding `getPatientsLoop` on a well-formed fixture of `m` pages
starting at page `s`, where exactly the first `m - 1` pages advertise a
next page: the loop requests precisely pages `s, s+1, …, s+m-1` and
accumulates the id and diagnosis columns of all their rows. -/
theorem getPatientsLoop_fixture :
    ∀ (m : Nat) (site : Site) (s fuel : Nat), 0 < m → m ≤ fuel →
      (∀ j, j < m → pageOk (site.listing (s + j))) →
      (∀ j, j < m → hasNextPage (site.listing (s + j)) = decide (j + 1 < m)) →
      getPatientsLoop site s fuel =
        ((List.range m).map (fun j => .httpGetListing (s + j)),
         .ok (((List.range m).map
                (fun j => (pageRows (site.listing (s + j))).map fstCell)).flatten,
              ((List.range m).map
                (fun j => (pageRows (site.listing (s + j))).map sixthCell)).flatten)) := by
  intro m
  induction m with
  | zero => intro site s fuel h0; omega
  | succ m ih =>
    intro site s fuel h0 hfuel hok hnext
    obtain ⟨f, rfl⟩ : ∃ f, fuel = f + 1 := ⟨fuel - 1, by omega⟩
    have hok0 := hok 0 (by omega)
    rw [Nat.add_zero] at hok0
    obtain ⟨table, htable⟩ := Option.isSome_iff_exists.mp hok0.1
    obtain ⟨ptext, hpag⟩ := Option.isSome_iff_exists.mp hok0.2.1
    have hrows : pageRows (site.listing s) = table.drop 1 := by
      simp [pageRows, htable]
    have hlen : ∀ r ∈ table.drop 1, 6 ≤ r.tds.length := by
      intro r hr; exact hok0.2.2 r (hrows ▸ hr)
    have hids := mapM_rowId_ok (table.drop 1)
      (fun r hr => by
        have h6 := hlen r hr
        intro hc
        rw [hc] at h6
        simp at h6)
    have hdiags := mapM_rowDiag_ok (table.drop 1) hlen
    have hnext0 := hnext 0 (by omega)
    rw [Nat.add_zero] at hnext0
    have hnext0' : containsLowerCI "next" ptext = decide (0 + 1 < m + 1) := by
      rw [← hnext0]; simp [hasNextPage, hpag]
    cases m with
    | zero =>
      have hfalse : containsLowerCI "next" ptext = false := by
        rw [hnext0']; simp
      simp only [getPatientsLoop, htable, hids, hdiags, hpag, hfalse,
        Bool.false_eq_true, if_false,
        map_range_shift Event.httpGetListing 0 s,
        map_range_shift (fun p => (pageRows (site.listing p)).map fstCell) 0 s,
        map_range_shift (fun p => (pageRows (site.listing p)).map sixthCell) 0 s,
        List.range_zero, List.map_nil, List.flatten_cons, List.flatten_nil,
        List.append_nil, hrows]
    | succ m' =>
      have htrue : containsLowerCI "next" ptext = true := by
        rw [hnext0']; simp
      have hrec := ih site (s + 1) f (by omega) (by omega)
        (fun j hj => by
          have h2 := hok (j + 1) (by omega)
          rwa [show s + (j + 1) = s + 1 + j by omega] at h2)
        (fun j hj => by
          have h2 := hnext (j + 1) (by omega)
          rw [show s + (j + 1) = s + 1 + j by omega] at h2
          rw [h2]
          simp only [decide_eq_decide]
          omega)
      simp only [getPatientsLoop, htable, hids, hdiags, hpag, htrue, if_true,
        hrec,
        map_range_shift Event.httpGetListing (m' + 1) s,
        map_range_shift (fun p => (pageRows (site.listing p)).map fstCell)
          (m' + 1) s,
        map_range_shift (fun p => (pageRows (site.listing p)).map sixthCell)
          (m' + 1) s,
        List.flatten_cons, hrows, Except.map]

theorem zip_flatten_pairs {α β : Type} (L : List (List (α × β))) :
    ((L.map (fun l => l.map Prod.fst)).flatten).zip
        ((L.map (fun l => l.map Prod.snd)).flatten) = L.flatten := by
  induction L with
  | nil => rfl
  | cons l L ih =>
    simp only [List.map_cons, List.flatten_cons]
    rw [List.zip_append (by simp), ih, List.zip_map']
    simp

instance (p : ListingPage) : Decidable (pageOk p) := by
  unfold pageOk
  infer_instance

/-! ### A concrete three-page fixture used by the witnesses -/

/-- A data row of the fixture: id in the first cell, diagnosis in the
sixth. -/
def mkRow (i d : String) : Row := ⟨[i, "n", "a", "d", "r", d]⟩

/-- The header row the scraper skips. -/
def headerRow : Row := ⟨["ID", "N", "A", "D", "R", "Class"]⟩

def pageA1 : ListingPage :=
  ⟨some [headerRow, mkRow "1" "sick", mkRow "2" "healthy"], some "1 2 3 Next"⟩

def pageA2 : ListingPage :=
  ⟨some [headerRow, mkRow "3" "sick"], some "Previous 1 2 3 NEXT"⟩

def pageA3 : ListingPage :=
  ⟨some [headerRow, mkRow "1" "healthy"], some "Previous 1 2 3"⟩

def detailA : DetailPage := ⟨"<html></html>", [], none⟩

def siteA : Site where
  loginHasWarning := false
  listing := fun p =>
    if p = 1 then pageA1 else if p = 2 then pageA2 else if p = 3 then pageA3
    else ⟨none, none⟩
  detail := fun _ => detailA
  fetch := fun _ => .error "requests.exceptions.ConnectionError"
  clock := fun n => "2020-01-01T00:00:00." ++ toString n

/-! ### Claims about the Enumerator -/

/-- Claim C1: the Enumerator requests listing pages numbered 1, 2, …
and requests another page iff the current pagination text contains
`next` case-insensitively; on a fixture of `N` pages where exactly the
first `N - 1` advertise a next page, exactly `N` listing requests
occur, and then the loop stops with a result. -/
theorem pagination_exactly_n_requests (site : Site) (N fuel : Nat)
    (hN : 0 < N) (hfuel : N ≤ fuel)
    (hok : ∀ i, 1 ≤ i → i ≤ N → pageOk (site.listing i))
    (hnext : ∀ i, 1 ≤ i → i ≤ N →
      hasNextPage (site.listing i) = decide (i < N)) :
    (getPatients site fuel).1 =
      (List.range N).map (fun j => Event.httpGetListing (1 + j)) ∧
    (getPatients site fuel).1.length = N ∧
    (getPatients site fuel).2.isOk = true := by
  have h := getPatientsLoop_fixture N site 1 fuel hN hfuel
    (fun j hj => hok (1 + j) (by omega) (by omega))
    (fun j hj => by
      have h2 := hnext (1 + j) (by omega) (by omega)
      rw [h2]
      simp only [decide_eq_decide]
      omega)
  refine ⟨?_, ?_, ?_⟩
  · simp [getPatients, h]
  · simp [getPatients, h]
  · simp [getPatients, h, Except.isOk, Except.toBool, Except.map]

theorem pagination_exactly_n_requests_witness :
    (getPatients siteA 5).1 =
      (List.range 3).map (fun j => Event.httpGetListing (1 + j)) ∧
    (getPatients siteA 5).1.length = 3 ∧
    (getPatients siteA 5).2.isOk = true :=
  pagination_exactly_n_requests siteA 3 5 (by decide) (by decide)
    (fun i h1 h2 => by interval_cases i <;> decide)
    (fun i h1 h2 => by interval_cases i <;> decide)

/-- Claim C4: on every listing page the Enumerator skips the header row
and turns each remaining row into the pair (first-cell text, sixth-cell
text); across an `N`-page fixture the accumulated pair list is exactly
the concatenation of the per-page row pairs, one pair per row. -/
theorem every_row_one_pair (site : Site) (N fuel : Nat)
    (hN : 0 < N) (hfuel : N ≤ fuel)
    (hok : ∀ i, 1 ≤ i → i ≤ N → pageOk (site.listing i))
    (hnext : ∀ i, 1 ≤ i → i ≤ N →
      hasNextPage (site.listing i) = decide (i < N)) :
    ∃ ids diags, (getPatientsLoop site 1 fuel).2 = .ok (ids, diags) ∧
      ids.zip diags =
        ((List.range N).map (fun j => pagePairs (site.listing (1 + j)))).flatten ∧
      (ids.zip diags).length =
        ((List.range N).map
          (fun j => (pageRows (site.listing (1 + j))).length)).sum := by
  have h := getPatientsLoop_fixture N site 1 fuel hN hfuel
    (fun j hj => hok (1 + j) (by omega) (by omega))
    (fun j hj => by
      have h2 := hnext (1 + j) (by omega) (by omega)
      rw [h2]
      simp only [decide_eq_decide]
      omega)
  have hfst : ((fun l => List.map Prod.fst l) ∘
      fun j => pagePairs (site.listing (1 + j))) =
      fun j => (pageRows (site.listing (1 + j))).map fstCell := by
    funext j
    simp [pagePairs, List.map_map, Function.comp]
  have hsnd : ((fun l => List.map Prod.snd l) ∘
      fun j => pagePairs (site.listing (1 + j))) =
      fun j => (pageRows (site.listing (1 + j))).map sixthCell := by
    funext j
    simp [pagePairs, List.map_map, Function.comp]
  have hz := zip_flatten_pairs
    ((List.range N).map (fun j => pagePairs (site.listing (1 + j))))
  rw [List.map_map, List.map_map, hfst, hsnd] at hz
  refine ⟨_, _, by rw [h], hz, ?_⟩
  rw [hz, List.length_flatten, List.map_map]
  congr 1
  apply List.map_congr_left
  intro j hj
  simp [Function.comp, pagePairs]

theorem every_row_one_pair_witness :
    ∃ ids diags, (getPatientsLoop siteA 1 5).2 = .ok (ids, diags) ∧
      ids.zip diags =
        ((List.range 3).map (fun j => pagePairs (siteA.listing (1 + j)))).flatten ∧
      (ids.zip diags).length =
        ((List.range 3).map
          (fun j => (pageRows (siteA.listing (1 + j))).length)).sum :=
  every_row_one_pair siteA 3 5 (by decide) (by decide)
    (fun i h1 h2 => by interval_cases i <;> decide)
    (fun i h1 h2 => by interval_cases i <;> decide)

/-- Claim C6: `_get_patients` returns `dict(zip(ids, diags))`; when an
id occurs several times, the dict maps it to the diagnosis of its last
occurrence, and each distinct id has exactly one entry. -/
theorem duplicate_id_last_wins (site : Site) (fuel : Nat)
    (ids diags : List String)
    (h : (getPatientsLoop site 1 fuel).2 = .ok (ids, diags)) :
    (getPatients site fuel).2 = .ok (dictOfPairs (ids.zip diags)) ∧
    (∀ k, dictLookup (dictOfPairs (ids.zip diags)) k =
        lastLookup (ids.zip diags) k) ∧
    (dictKeys (dictOfPairs (ids.zip diags))).Nodup := by
  refine ⟨?_, fun k => dictLookup_dictOfPairs _ k,
    dictKeys_dictOfPairs_nodup _⟩
  simp [getPatients, h, Except.map]

theorem duplicate_id_last_wins_witness :
    (getPatients siteA 5).2 =
      .ok (dictOfPairs
        (List.zip ["1", "2", "3", "1"] ["sick", "healthy", "sick", "healthy"])) ∧
    dictLookup (dictOfPairs
      (List.zip ["1", "2", "3", "1"] ["sick", "healthy", "sick", "healthy"]))
      "1" = some "healthy" ∧
    (dictKeys (dictOfPairs
      (List.zip ["1", "2", "3", "1"]
        ["sick", "healthy", "sick", "healthy"]))).Nodup := by
  have h := duplicate_id_last_wins siteA 5 ["1", "2", "3", "1"]
    ["sick", "healthy", "sick", "healthy"] (by rfl)
  exact ⟨h.1, by rw [h.2.1 "1"]; decide, h.2.2⟩

theorem noTable_loop_error : ∀ (fuel : Nat) (site : Site) (s p : Nat),
    Event.httpGetListing p ∈ (getPatientsLoop site s fuel).1 →
    (site.listing p).mytable = none →
    (getPatientsLoop site s fuel).2 = .error EnumErr.noTable := by
  intro fuel
  induction fuel with
  | zero =>
    intro site s p hp hnone
    simp [getPatientsLoop] at hp
  | succ f ih =>
    intro site s p hp hnone
    cases hmt : (site.listing s).mytable with
    | none => simp [getPatientsLoop, hmt]
    | some table =>
      have hps : p ≠ s := by
        intro hc
        rw [hc, hmt] at hnone
        cases hnone
      cases hids : (table.drop 1).mapM rowId with
      | error e =>
        simp only [getPatientsLoop, hmt, hids, List.mem_singleton,
          Event.httpGetListing.injEq] at hp
        exact absurd hp hps
      | ok ids =>
        cases hdiags : (table.drop 1).mapM rowDiag with
        | error e =>
          simp only [getPatientsLoop, hmt, hids, hdiags, List.mem_singleton,
            Event.httpGetListing.injEq] at hp
          exact absurd hp hps
        | ok diags =>
          cases hpg : (site.listing s).pagination with
          | none =>
            simp only [getPatientsLoop, hmt, hids, hdiags, hpg,
              List.mem_singleton, Event.httpGetListing.injEq] at hp
            exact absurd hp hps
          | some ptext =>
            by_cases hnx : containsLowerCI "next" ptext
            · simp only [getPatientsLoop, hmt, hids, hdiags, hpg, hnx,
                if_true, List.mem_cons, Event.httpGetListing.injEq] at hp ⊢
              rcases hp with hp | hp
              · exact absurd hp hps
              · rw [ih site (s + 1) p hp hnone]
                rfl
            · rw [Bool.not_eq_true] at hnx
              simp only [getPatientsLoop, hmt, hids, hdiags, hpg, hnx,
                Bool.false_eq_true, if_false, List.mem_singleton,
                Event.httpGetListing.injEq] at hp
              exact absurd hp hps

/-- Claim C8: when a listing page the Enumerator actually fetched has
no table with id `mytable`, the enumeration raises (`find` returned
`None`, so `.find_all` raises `AttributeError`) and the error
propagates: `_get_patients` produces no mapping at all, in particular
not an empty one. -/
theorem missing_table_fails_loudly (site : Site) (fuel p : Nat)
    (hreq : Event.httpGetListing p ∈ (getPatients site fuel).1)
    (hnone : (site.listing p).mytable = none) :
    (getPatients site fuel).2 = .error EnumErr.noTable ∧
    ∀ d, (getPatients site fuel).2 ≠ .ok d := by
  have h := noTable_loop_error fuel site 1 p
    (by simpa [getPatients] using hreq) hnone
  constructor
  · simp [getPatients, h, Except.map]
  · intro d hc
    simp [getPatients, h, Except.map] at hc

/-- A fixture whose first listing page has no `mytable` table. -/
def siteB : Site :=
  { siteA with listing := fun _ => ⟨none, some "1 2 Next"⟩ }

theorem missing_table_fails_loudly_witness :
    (getPatients siteB 5).2 = .error EnumErr.noTable ∧
    (getPatients siteB 5).2 ≠ .ok [] :=
  ⟨(missing_table_fails_loudly siteB 5 1 (by decide) (by decide)).1,
   (missing_table_fails_loudly siteB 5 1 (by decide) (by decide)).2 []⟩

/-! ### Claims about `run`: login failure and class directories -/

/-- Requests to the paginated listing or to a patient detail page. -/
def isListingOrDetail : Event → Bool
  | .httpGetListing _ => true
  | .httpGetDetail _ => true
  | _ => false

/-- A fixed settings value for concrete runs. -/
def settingsA : Settings :=
  { clearDataBeforehand := false
    username := "user"
    password := "pass"
    saveRecordPage := true
    saveImages := true
    saveThermalMatrixes := true }

/-- The fixture site with a bad-credentials warning in the login
response. -/
def siteC : Site := { siteA with loginHasWarning := true }

/-- Claim C3, counterexample to the exit status: on a login response
with the `alert-warning` marker the whole trace ends in `sys.exit()`
with no argument, which terminates the process with exit status 0, not
a nonzero one. -/
theorem login_failure_exit_is_zero :
    run siteC settingsA 5 =
      (loginEvents ++
        [.printLine "Username or password is incorrect.", .exitProc 0],
       none) ∧
    Event.exitProc 0 ∈ (run siteC settingsA 5).1 ∧
    Event.exitProc 1 ∉ (run siteC settingsA 5).1 := by
  refine ⟨rfl, ?_, ?_⟩ <;> decide

/-- Claim C3 (amended): when the login response carries the
`alert-warning` marker, the run prints the bad-credentials message and
stops at once via `sys.exit()` — exit status 0, since `sys.exit` is
called with no argument — and the trace holds no request to the listing
or detail endpoints at all. -/
theorem login_failure_halts_run (site : Site) (settings : Settings)
    (fuel : Nat) (hw : site.loginHasWarning = true) :
    run site settings fuel =
      (loginEvents ++
        [.printLine "Username or password is incorrect.", .exitProc 0],
       none) ∧
    (run site settings fuel).1.countP (fun e => isListingOrDetail e) = 0 ∧
    Event.printLine "Username or password is incorrect."
      ∈ (run site settings fuel).1 ∧
    Event.exitProc 0 ∈ (run site settings fuel).1 := by
  have htr : run site settings fuel =
      (loginEvents ++
        [.printLine "Username or password is incorrect.", .exitProc 0],
       none) := by
    simp [run, hw]
  refine ⟨htr, ?_, ?_, ?_⟩ <;> rw [htr] <;> decide

theorem login_failure_halts_run_witness :
    run siteC settingsA 5 =
      (loginEvents ++
        [.printLine "Username or password is incorrect.", .exitProc 0],
       none) ∧
    (run siteC settingsA 5).1.countP (fun e => isListingOrDetail e) = 0 ∧
    Event.printLine "Username or password is incorrect."
      ∈ (run siteC settingsA 5).1 ∧
    Event.exitProc 0 ∈ (run siteC settingsA 5).1 :=
  login_failure_halts_run siteC settingsA 5 (by decide)

theorem dictLookup_map_self (l : List String) (g : String → String)
    (c : String) (hc : c ∈ l) :
    dictLookup (l.map (fun x => (x, g x))) c = some (g c) := by
  induction l with
  | nil => cases hc
  | cons d l ih =>
    by_cases hd : d = c
    · simp [dictLookup, List.find?_cons, hd]
    · rcases List.mem_cons.mp hc with hcd | hcd
      · exact absurd hcd.symm hd
      · simpa [dictLookup, List.find?_cons, hd] using ih hcd

theorem stringAppend_cancel_left {a b c : String} (h : a ++ b = a ++ c) :
    b = c := by
  have hd := congrArg String.data h
  simp only [String.data_append] at hd
  have hbc := List.append_cancel_left hd
  exact congrArg String.mk hbc

/-- Claim C7: after a successful enumeration the run makes one class
directory per distinct diagnosis class, all of them before any patient
is processed (the class `mkdir`s sit between the listing requests and
the patient-loop events); every patient's class has its directory among
them; and each patient's own output directory is `data/<class>/<id>`,
injectively keyed by the id within its class. -/
theorem class_dirs_before_patients (site : Site) (settings : Settings)
    (fuel : Nat) (patients : List (String × String))
    (hw : site.loginHasWarning = false)
    (hok : (getPatients site fuel).2 = .ok patients) :
    (run site settings fuel).1 =
      loginEvents ++ (getPatients site fuel).1 ++ classDirEvents patients ++
        (processPatients site settings (getClassesPath patients) patients).1 ∧
    (∀ p ∈ patients,
      Event.mkdir (dataPath ++ "/" ++ p.2) ∈ classDirEvents patients) ∧
    (∀ p ∈ patients,
      dictLookup (getClassesPath patients) p.2 =
        some (dataPath ++ "/" ++ p.2)) ∧
    (∀ p ∈ patients,
      (processPatient site settings (getClassesPath patients) p).1.head? =
        some (.mkdir (dataPath ++ "/" ++ p.2 ++ "/" ++ p.1))) ∧
    (∀ p ∈ patients, ∀ q ∈ patients, p.2 = q.2 →
      dataPath ++ "/" ++ p.2 ++ "/" ++ p.1 =
        dataPath ++ "/" ++ q.2 ++ "/" ++ q.1 → p.1 = q.1) := by
  have hmemcl : ∀ p ∈ patients, p.2 ∈ classList patients := by
    intro p hp
    exact List.mem_dedup.mpr (List.mem_map_of_mem Prod.snd hp)
  have hlook : ∀ p ∈ patients,
      dictLookup (getClassesPath patients) p.2 =
        some (dataPath ++ "/" ++ p.2) := by
    intro p hp
    exact dictLookup_map_self (classList patients)
      (fun c => dataPath ++ "/" ++ c) p.2 (hmemcl p hp)
  refine ⟨?_, ?_, hlook, ?_, ?_⟩
  · simp only [run, hw, Bool.false_eq_true, if_false, hok]
  · intro p hp
    exact List.mem_map_of_mem (fun c => Event.mkdir (dataPath ++ "/" ++ c))
      (hmemcl p hp)
  · intro p hp
    by_cases hm : settings.saveThermalMatrixes <;>
      simp [processPatient, hlook p hp, hm]
  · intro p hp q hq hclass hpath
    rw [hclass] at hpath
    exact stringAppend_cancel_left hpath

theorem class_dirs_before_patients_witness :
    (run siteA settingsA 5).1 =
      loginEvents ++ (getPatients siteA 5).1 ++
        classDirEvents [("1", "healthy"), ("2", "healthy"), ("3", "sick")] ++
        (processPatients siteA settingsA
          (getClassesPath [("1", "healthy"), ("2", "healthy"), ("3", "sick")])
          [("1", "healthy"), ("2", "healthy"), ("3", "sick")]).1 ∧
    Event.mkdir (dataPath ++ "/" ++ "sick") ∈
      classDirEvents [("1", "healthy"), ("2", "healthy"), ("3", "sick")] ∧
    dictLookup (getClassesPath
        [("1", "healthy"), ("2", "healthy"), ("3", "sick")]) "sick" =
      some (dataPath ++ "/" ++ "sick") ∧
    (processPatient siteA settingsA
      (getClassesPath [("1", "healthy"), ("2", "healthy"), ("3", "sick")])
      ("3", "sick")).1.head? =
        some (.mkdir (dataPath ++ "/" ++ "sick" ++ "/" ++ "3")) := by
  have h := class_dirs_before_patients siteA settingsA 5
    [("1", "healthy"), ("2", "healthy"), ("3", "sick")] (by decide) (by rfl)
  exact ⟨h.1, h.2.1 ("3", "sick") (by decide),
    h.2.2.1 ("3", "sick") (by decide), h.2.2.2.1 ("3", "sick") (by decide)⟩

/-! ### Claims about the per-item download loops -/

/-- The error-log lines appended by a stretch of trace, in order. -/
def logLines (evs : List Event) : List String :=
  evs.filterMap (fun e =>
    match e with
    | .appendLog l => some l
    | _ => none)

/-- How many files a stretch of trace writes. -/
def countWrites (evs : List Event) : Nat :=
  evs.countP (fun e =>
    match e with
    | .writeFile _ _ _ => true
    | _ => false)

theorem logLines_append (a b : List Event) :
    logLines (a ++ b) = logLines a ++ logLines b :=
  List.filterMap_append a b _

theorem countWrites_append (a b : List Event) :
    countWrites (a ++ b) = countWrites a + countWrites b :=
  List.countP_append _ a b

theorem logLines_length_processImage (site : Site)
    (pid now path : String) (img : ImageElem) :
    (logLines (processImage site pid now path img)).length =
      if imageFails site img then 1 else 0 := by
  cases h : imageStep site img <;>
    simp [processImage, imageFails, h, logLines]

theorem countWrites_processImage (site : Site)
    (pid now path : String) (img : ImageElem) :
    countWrites (processImage site pid now path img) =
      if imageFails site img then 0 else 1 := by
  cases h : imageStep site img <;>
    simp [processImage, imageFails, h, countWrites]

theorem logLines_length_processImages (site : Site) (pid path : String) :
    ∀ (i0 : Nat) (imgs : List ImageElem),
    (logLines (processImages site pid path i0 imgs)).length =
      imgs.countP (fun i => imageFails site i) := by
  intro i0 imgs
  induction imgs generalizing i0 with
  | nil => rfl
  | cons img rest ih =>
    rw [processImages, logLines_append, List.length_append,
      logLines_length_processImage, ih (i0 + 1), List.countP_cons]
    cases imageFails site img <;> simp [Nat.add_comm]

theorem countWrites_processImages (site : Site) (pid path : String) :
    ∀ (i0 : Nat) (imgs : List ImageElem),
    countWrites (processImages site pid path i0 imgs) =
      imgs.countP (fun i => !imageFails site i) := by
  intro i0 imgs
  induction imgs generalizing i0 with
  | nil => rfl
  | cons img rest ih =>
    rw [processImages, countWrites_append, countWrites_processImage,
      ih (i0 + 1), List.countP_cons]
    cases imageFails site img <;> simp [Nat.add_comm]

theorem logLines_length_processMatrix (site : Site)
    (pid now : String) (m : String × String) :
    (logLines (processMatrix site pid now m)).length =
      if matrixFails site m then 1 else 0 := by
  cases h : matrixStep site m.1 <;>
    simp [processMatrix, matrixFails, h, logLines]

theorem countWrites_processMatrix (site : Site)
    (pid now : String) (m : String × String) :
    countWrites (processMatrix site pid now m) =
      if matrixFails site m then 0 else 1 := by
  cases h : matrixStep site m.1 <;>
    simp [processMatrix, matrixFails, h, countWrites]

theorem logLines_length_processMatrixes (site : Site) (pid : String) :
    ∀ (i0 : Nat) (ms : List (String × String)),
    (logLines (processMatrixes site pid i0 ms)).length =
      ms.countP (fun m => matrixFails site m) := by
  intro i0 ms
  induction ms generalizing i0 with
  | nil => rfl
  | cons m rest ih =>
    rw [processMatrixes, logLines_append, List.length_append,
      logLines_length_processMatrix, ih (i0 + 1), List.countP_cons]
    cases matrixFails site m <;> simp [Nat.add_comm]

theorem countWrites_processMatrixes (site : Site) (pid : String) :
    ∀ (i0 : Nat) (ms : List (String × String)),
    countWrites (processMatrixes site pid i0 ms) =
      ms.countP (fun m => !matrixFails site m) := by
  intro i0 ms
  induction ms generalizing i0 with
  | nil => rfl
  | cons m rest ih =>
    rw [processMatrixes, countWrites_append, countWrites_processMatrix,
      ih (i0 + 1), List.countP_cons]
    cases matrixFails site m <;> simp [Nat.add_comm]

/-- The appended line starts with the timestamp and carries the
rendered filename, the patient id and the exception message as
substrings. -/
theorem errorLine_parts (now : String) (fn : Option String)
    (pid msg : String) :
    now.data <+: (errorLine now fn pid msg).data ∧
    (fnText fn).data <:+: (errorLine now fn pid msg).data ∧
    pid.data <:+: (errorLine now fn pid msg).data ∧
    msg.data <:+: (errorLine now fn pid msg).data := by
  refine ⟨⟨(" - failed to download \x27" ++ fnText fn ++
      "\x27 at patitent #\x27" ++ pid ++ "\x27 - " ++ msg ++ "\n").data, ?_⟩,
    ⟨(now ++ " - failed to download \x27").data,
     ("\x27 at patitent #\x27" ++ pid ++ "\x27 - " ++ msg ++ "\n").data, ?_⟩,
    ⟨(now ++ " - failed to download \x27" ++ fnText fn ++
      "\x27 at patitent #\x27").data,
     ("\x27 - " ++ msg ++ "\n").data, ?_⟩,
    ⟨(now ++ " - failed to download \x27" ++ fnText fn ++
      "\x27 at patitent #\x27" ++ pid ++ "\x27 - ").data,
     ("\n").data, ?_⟩⟩ <;>
  simp [errorLine, String.data_append, List.append_assoc]

/-- Claim C2: inside one patient, every exception of the image or
matrix `try` bodies is caught and turns into exactly one error-log
line (of the `_append_error` shape: timestamp, rendered filename,
patient id, message), successes each write exactly one file, the loop
goes on to the next item either way, and the counts add up: as many
log lines as failing items, as many writes as succeeding items. -/
theorem per_item_failures_logged (site : Site) (pid ppath : String)
    (imgs : List ImageElem) (ms : List (String × String)) :
    (logLines (downloadPatientImages site pid ppath imgs)).length =
        imgs.countP (fun i => imageFails site i) ∧
    countWrites (downloadPatientImages site pid ppath imgs) =
        imgs.countP (fun i => !imageFails site i) ∧
    (∀ i0, (logLines (processMatrixes site pid i0 ms)).length =
        ms.countP (fun m => matrixFails site m) ∧
      countWrites (processMatrixes site pid i0 ms) =
        ms.countP (fun m => !matrixFails site m)) ∧
    (∀ now img, imageFails site img = true →
      ∃ fn msg, logLines (processImage site pid now ppath img) =
        [errorLine now fn pid msg] ∧
        pid.data <:+: (errorLine now fn pid msg).data ∧
        now.data <+: (errorLine now fn pid msg).data ∧
        msg.data <:+: (errorLine now fn pid msg).data) ∧
    (∀ now m, matrixFails site m = true →
      ∃ fn msg, logLines (processMatrix site pid now m) =
        [errorLine now fn pid msg]) ∧
    (∀ i0 img rest, processImages site pid ppath i0 (img :: rest) =
      processImage site pid (site.clock i0) ppath img ++
        processImages site pid ppath (i0 + 1) rest) ∧
    (∀ i0 m rest, processMatrixes site pid i0 (m :: rest) =
      processMatrix site pid (site.clock i0) m ++
        processMatrixes site pid (i0 + 1) rest) := by
  refine ⟨?_, ?_, fun i0 => ⟨logLines_length_processMatrixes site pid i0 ms,
      countWrites_processMatrixes site pid i0 ms⟩, ?_, ?_,
    fun _ _ _ => rfl, fun _ _ _ => rfl⟩
  · rw [downloadPatientImages, show Event.mkdir (ppath ++ "/images") ::
        processImages site pid (ppath ++ "/images") 0 imgs =
      [Event.mkdir (ppath ++ "/images")] ++
        processImages site pid (ppath ++ "/images") 0 imgs from rfl,
      logLines_append, List.length_append,
      logLines_length_processImages site pid (ppath ++ "/images") 0 imgs]
    simp [logLines]
  · rw [downloadPatientImages, show Event.mkdir (ppath ++ "/images") ::
        processImages site pid (ppath ++ "/images") 0 imgs =
      [Event.mkdir (ppath ++ "/images")] ++
        processImages site pid (ppath ++ "/images") 0 imgs from rfl,
      countWrites_append,
      countWrites_processImages site pid (ppath ++ "/images") 0 imgs]
    simp [countWrites]
  · intro now img hfail
    cases h : imageStep site img with
    | noHref msg =>
      refine ⟨none, msg, ?_, (errorLine_parts now none pid msg).2.2.1,
        (errorLine_parts now none pid msg).1,
        (errorLine_parts now none pid msg).2.2.2⟩
      simp [processImage, h, logLines]
    | noFilename url =>
      refine ⟨none, "AttributeError: NoneType has no attribute group", ?_,
        (errorLine_parts now none pid _).2.2.1,
        (errorLine_parts now none pid _).1,
        (errorLine_parts now none pid _).2.2.2⟩
      simp [processImage, h, logLines]
    | fetchFail url fn msg =>
      refine ⟨some fn, msg, ?_, (errorLine_parts now (some fn) pid msg).2.2.1,
        (errorLine_parts now (some fn) pid msg).1,
        (errorLine_parts now (some fn) pid msg).2.2.2⟩
      simp [processImage, h, logLines]
    | ok url fn content =>
      rw [imageFails, h] at hfail
      cases hfail
  · intro now m hfail
    cases h : matrixStep site m.1 with
    | noHref msg =>
      exact ⟨none, msg, by simp [processMatrix, h, logLines]⟩
    | noFilename url =>
      exact ⟨none, "AttributeError: NoneType has no attribute group",
        by simp [processMatrix, h, logLines]⟩
    | fetchFail url fn msg =>
      exact ⟨some fn, msg, by simp [processMatrix, h, logLines]⟩
    | ok url fn content =>
      rw [matrixFails, h] at hfail
      cases hfail

/-- An image element whose action container carries a third anchor with
a well-formed relative href. -/
def imgGood : ImageElem :=
  ⟨some [⟨some "./prontuario/zoom.php", none⟩,
         ⟨some "./prontuario/rotate.php", none⟩,
         ⟨some "./prontuario/images/img1.jpg", none⟩]⟩

/-- An image element with only one anchor: `find_all("a")[2]` raises
`IndexError`. -/
def imgBad : ImageElem :=
  ⟨some [⟨some "./prontuario/zoom.php", none⟩]⟩

/-- The fixture site with a network that answers every file GET. -/
def siteD : Site := { siteA with fetch := fun u => .ok ("bytes:" ++ u) }

theorem per_item_failures_logged_witness :
    (logLines (downloadPatientImages siteD "42" "data/sick/42"
        [imgGood, imgBad])).length = 1 ∧
    countWrites (downloadPatientImages siteD "42" "data/sick/42"
        [imgGood, imgBad]) = 1 := by
  have h := per_item_failures_logged siteD "42" "data/sick/42"
    [imgGood, imgBad] []
  exact ⟨by rw [h.1]; decide, by rw [h.2.1]; decide⟩

theorem lastSegment_baseUrl (s : String) :
    lastSegment (baseUrl ++ s) =
      some (String.mk
        (((baseUrl ++ s).data.reverse.takeWhile (fun c => c ≠ '/')).reverse)) := by
  have hmem : '/' ∈ (baseUrl ++ s).data := by
    rw [String.data_append]
    exact List.mem_append_left _ (by decide)
  unfold lastSegment
  rw [if_pos hmem]

/-- Claim C10: the download URL is the fixed base URL concatenated with
the href minus its first two characters — no relative-URL resolution —
the saved filename is the substring of the URL after its last slash,
the image href comes from the third anchor of the action container, and
an image element with fewer than three anchors becomes a per-item
failure (one log line, no write). -/
theorem url_concat_and_filename (site : Site)
    (pid now path : String) (img : ImageElem) (anchors : List Anchor)
    (hb : img.botoes = some anchors) :
    (∀ a h, anchors.get? 2 = some a → a.href = some h →
      imageHref img = .ok h ∧
      ∃ fn, lastSegment (baseUrl ++ String.drop h 2) = some fn ∧
        (∀ msg, site.fetch (baseUrl ++ String.drop h 2) = .error msg →
          processImage site pid now path img =
            [.httpGetFile (baseUrl ++ String.drop h 2),
             .appendLog (errorLine now (some fn) pid msg)]) ∧
        (∀ content, site.fetch (baseUrl ++ String.drop h 2) = .ok content →
          processImage site pid now path img =
            [.httpGetFile (baseUrl ++ String.drop h 2),
             .writeFile (path ++ "/" ++ fn) content true])) ∧
    (anchors.length < 3 →
      imageFails site img = true ∧
      logLines (processImage site pid now path img) =
        [errorLine now none pid "IndexError: list index out of range"] ∧
      countWrites (processImage site pid now path img) = 0) ∧
    (∀ sp dp link hh tt, link.href = some hh → link.title = some tt →
      ∃ pth, matrixOfLink sp dp link =
        .ok (baseUrl ++ String.drop hh 2, pth)) := by
  refine ⟨?_, ?_, ?_⟩
  · intro a h ha hh
    rw [List.get?_eq_getElem?] at ha
    have href : imageHref img = .ok h := by
      simp [imageHref, hb, List.get?_eq_getElem?, ha, hh]
    refine ⟨href, _, lastSegment_baseUrl (String.drop h 2), ?_, ?_⟩
    · intro msg hmsg
      simp [processImage, imageStep, href, lastSegment_baseUrl, hmsg]
    · intro content hcontent
      simp [processImage, imageStep, href, lastSegment_baseUrl, hcontent]
  · intro hlen
    have hget : anchors.get? 2 = none := by
      rw [List.get?_eq_none]
      omega
    rw [List.get?_eq_getElem?] at hget
    have href : imageHref img =
        .error "IndexError: list index out of range" := by
      simp [imageHref, hb, List.get?_eq_getElem?, hget]
    have hstep : imageStep site img =
        .noHref "IndexError: list index out of range" := by
      simp [imageStep, href]
    exact ⟨by simp [imageFails, hstep],
      by simp [processImage, hstep, logLines],
      by simp [processImage, hstep, countWrites]⟩
  · intro sp dp link hh tt h1 h2
    exact ⟨if containsLowerCI "static" tt then sp else dp,
      by simp [matrixOfLink, h1, h2]⟩

theorem url_concat_and_filename_witness :
    imageHref imgGood = .ok "./prontuario/images/img1.jpg" ∧
    imageFails siteD imgBad = true ∧
    countWrites (processImage siteD "42" "t0" "data/sick/42" imgBad) = 0 := by
  have hgood := url_concat_and_filename siteD "42" "t0" "data/sick/42"
    imgGood _ rfl
  have hbad := url_concat_and_filename siteD "42" "t0" "data/sick/42"
    imgBad _ rfl
  exact ⟨(hgood.1 ⟨some "./prontuario/images/img1.jpg", none⟩
      "./prontuario/images/img1.jpg" (by decide) (by decide)).1,
    (hbad.2.1 (by decide)).1, (hbad.2.1 (by decide)).2.2⟩

/-- Claim C5: a matrix link whose title contains `static` in any letter
case goes to the `Static/` directory, any other to `Dynamic/`, and a
successful download is written as text (not binary). -/
theorem static_dynamic_classification (site : Site)
    (pid now sp dp : String) (hne : sp ≠ dp) (link : Anchor)
    (h t : String) (hh : link.href = some h) (ht : link.title = some t) :
    matrixOfLink sp dp link =
      .ok (baseUrl ++ String.drop h 2,
           if containsLowerCI "static" t then sp else dp) ∧
    (∀ url pth, matrixOfLink sp dp link = .ok (url, pth) →
      (pth = sp ↔ containsLowerCI "static" t = true)) ∧
    (∀ url pth fn content, matrixOfLink sp dp link = .ok (url, pth) →
      lastSegment url = some fn → site.fetch url = .ok content →
      processMatrix site pid now (url, pth) =
        [.httpGetFile url, .writeFile (pth ++ "/" ++ fn) content false]) := by
  have hml : matrixOfLink sp dp link =
      .ok (baseUrl ++ String.drop h 2,
           if containsLowerCI "static" t then sp else dp) := by
    simp [matrixOfLink, hh, ht]
  refine ⟨hml, ?_, ?_⟩
  · intro url pth hm
    rw [hml] at hm
    have hp : pth = if containsLowerCI "static" t then sp else dp := by
      cases hm
      rfl
    cases hcs : containsLowerCI "static" t with
    | true => simp [hcs] at hp; simp [hp]
    | false =>
      simp [hcs] at hp
      subst hp
      simp [hcs]
      exact fun hc => hne hc.symm
  · intro url pth fn content hm hfn hcontent
    simp [processMatrix, matrixStep, hfn, hcontent]

/-- A matrix link titled as a static acquisition. -/
def linkStatic : Anchor := ⟨some "./prontuario/matrix1.txt", some "Matriz STATIC"⟩

/-- A matrix link with no `static` in its title. -/
def linkDyn : Anchor := ⟨some "./prontuario/matrix2.txt", some "Matriz Dinamica"⟩

theorem static_dynamic_classification_witness :
    matrixOfLink "S" "D" linkStatic =
      .ok (baseUrl ++ String.drop "./prontuario/matrix1.txt" 2, "S") ∧
    matrixOfLink "S" "D" linkDyn =
      .ok (baseUrl ++ String.drop "./prontuario/matrix2.txt" 2, "D") := by
  have h1 := static_dynamic_classification siteD "42" "t0" "S" "D"
    (by decide) linkStatic _ _ rfl rfl
  have h2 := static_dynamic_classification siteD "42" "t0" "S" "D"
    (by decide) linkDyn _ _ rfl rfl
  exact ⟨by rw [h1.1]; rfl, by rw [h2.1]; rfl⟩

/-- Claim C9: `__init__` always truncates `report.log` to empty —
whatever the previous content and whatever `clear_data_beforehand`
says — and within a run `_append_error` only ever appends to it. -/
theorem log_reset_on_init (settings : Settings)
    (fs : List (String × String)) :
    dictLookup (applyEvents fs (initEvents settings)) logPath = some "" ∧
    Event.writeFile logPath "" false ∈ initEvents settings ∧
    (∀ fs2 c line, dictLookup fs2 logPath = some c →
      dictLookup (applyEvent fs2 (.appendLog line)) logPath =
        some (c ++ line)) := by
  refine ⟨?_, ?_, ?_⟩
  · cases hcb : settings.clearDataBeforehand <;>
      simp [initEvents, applyEvents, applyEvent, hcb, dictLookup_dictInsert]
  · cases hcb : settings.clearDataBeforehand <;> simp [initEvents, hcb]
  · intro fs2 c line hc
    simp [applyEvent, hc, dictLookup_dictInsert]

theorem log_reset_on_init_witness :
    dictLookup (applyEvents [("report.log", "old-errors")]
      (initEvents { settingsA with clearDataBeforehand := true }))
      logPath = some "" ∧
    dictLookup (applyEvent [("report.log", "")] (.appendLog "line1"))
      logPath = some ("" ++ "line1") := by
  have h := log_reset_on_init { settingsA with clearDataBeforehand := true }
    [("report.log", "old-errors")]
  exact ⟨h.1, h.2.2 [("report.log", "")] "" "line1" (by decide)⟩

end VisualLab
